import Mathlib

/-!
Verification of the PEG engine (packages parser2, parser/charclass, parser)
against its specification.

The development shallowly embeds the Go sources:
* strings are byte lists (Go strings are byte sequences);
* runes are natural numbers (Unicode scalar values, with 0xFFFD the
  replacement rune used by the Go utf8 package for decode errors);
* Go maps keyed by strings or runes are association lists / member lists,
  which is faithful because the Go code never depends on map iteration
  order for control flow (only for error-message formatting);
* the parse engine, which in Go may recurse without bound on
  left-recursive grammars, is embedded as a fuel-indexed interpreter that
  returns `none` when the fuel runs out; any terminating Go execution is
  reproduced by every sufficiently large fuel.
-/

namespace Peg

/-- Bytes of an ASCII string, used to write concrete inputs readably.
Agrees with Go's UTF-8 byte representation exactly when every character
is below 0x80; it is only ever applied to ASCII literals in this file. -/
def asciiBytes (s : String) : List Nat := s.data.map Char.toNat

/-- Go `s[a:b]` on a byte string: defined iff `a ≤ b ≤ len(s)`;
out-of-range slicing panics in Go, which is modelled by `none`. -/
def goSlice (s : List Nat) (a b : Nat) : Option (List Nat) :=
  if a ≤ b ∧ b ≤ s.length then some ((s.drop a).take (b - a)) else none

/-- The Unicode replacement rune `utf8.RuneError`. -/
def runeError : Nat := 0xFFFD

/-- Is `b` a UTF-8 continuation byte (0x80..0xBF)? -/
def isCont (b : Nat) : Bool := 0x80 ≤ b && b ≤ 0xBF

/-- Model of Go `utf8.DecodeRuneInString`: decodes the first code point of
a byte string, returning the rune and its width in bytes.  Returns
`(RuneError, 0)` on empty input and `(RuneError, 1)` on any invalid,
overlong, surrogate or truncated encoding, exactly as the Go function. -/
def decodeRune : List Nat → Nat × Nat
  | [] => (runeError, 0)
  | b0 :: rest =>
    if b0 < 0x80 then (b0, 1)
    else if 0xC2 ≤ b0 && b0 ≤ 0xDF then
      match rest with
      | b1 :: _ =>
        if isCont b1 then (((b0 &&& 0x1F) <<< 6) ||| (b1 &&& 0x3F), 2)
        else (runeError, 1)
      | [] => (runeError, 1)
    else if 0xE0 ≤ b0 && b0 ≤ 0xEF then
      match rest with
      | b1 :: b2 :: _ =>
        let okB1 :=
          if b0 = 0xE0 then 0xA0 ≤ b1 && b1 ≤ 0xBF
          else if b0 = 0xED then 0x80 ≤ b1 && b1 ≤ 0x9F
          else isCont b1
        if okB1 && isCont b2 then
          (((b0 &&& 0x0F) <<< 12) ||| ((b1 &&& 0x3F) <<< 6) ||| (b2 &&& 0x3F), 3)
        else (runeError, 1)
      | _ => (runeError, 1)
    else if 0xF0 ≤ b0 && b0 ≤ 0xF4 then
      match rest with
      | b1 :: b2 :: b3 :: _ =>
        let okB1 :=
          if b0 = 0xF0 then 0x90 ≤ b1 && b1 ≤ 0xBF
          else if b0 = 0xF4 then 0x80 ≤ b1 && b1 ≤ 0x8F
          else isCont b1
        if okB1 && isCont b2 && isCont b3 then
          (((b0 &&& 0x07) <<< 18) ||| ((b1 &&& 0x3F) <<< 12) |||
            ((b2 &&& 0x3F) <<< 6) ||| (b3 &&& 0x3F), 4)
        else (runeError, 1)
      | _ => (runeError, 1)
    else (runeError, 1)

/-! ## Character-class module (parser/charclass/charclass.go) -/

/-- One entry of `unicode.RangeTable.R16` (always built with stride 1 by
`charclass.Parse`). -/
structure Range16 where
  lo : Nat
  hi : Nat
  stride : Nat
  deriving DecidableEq, Repr

/-- One entry of `unicode.RangeTable.R32`. -/
structure Range32 where
  lo : Nat
  hi : Nat
  stride : Nat
  deriving DecidableEq, Repr

/-- Model of `unicode.RangeTable` (the `LatinOffset` field is a pure
lookup-speed hint in the Go library and does not affect membership). -/
structure RangeTable where
  r16 : List Range16
  r32 : List Range32
  deriving DecidableEq, Repr

/-- Model of `charclass.CharClass`.  `map` lists the runes that the Go
`Map map[rune]bool` maps to true (insertion order, no duplicates);
`rangeTable` is `none` when the Go pointer is nil. -/
structure CharClass where
  map : List Nat
  rangeTable : Option RangeTable
  negated : Bool
  special : String
  deriving DecidableEq, Repr

/-- Membership in a range table, the semantics of `unicode.Is`:
some range contains the rune, respecting the stride.  `Parse` only
builds stride-1 ranges. -/
def rtContains (rt : RangeTable) (c : Nat) : Bool :=
  rt.r16.any (fun r => r.lo ≤ c && c ≤ r.hi && (c - r.lo) % r.stride = 0) ||
  rt.r32.any (fun r => r.lo ≤ c && c ≤ r.hi && (c - r.lo) % r.stride = 0)

/-- The `specialClasses` table of charclass.go, in declaration order. -/
def specialClasses : List (String × String) :=
  [("[:alpha:]", "IsLetter"), ("[:digit:]", "IsNumber"),
   ("[:space:]", "IsSpace"), ("[:lower:]", "IsLower"),
   ("[:upper:]", "IsUpper"), ("[:punct:]", "IsPunct"),
   ("[:print:]", "IsPrint"), ("[:graph:]", "IsGraphic"),
   ("[:cntrl:]", "IsControl"), ("[:alnum:]", "[:alnum:]"),
   ("[:any:]", "[:any:]")]

/-- Go map lookup `specialClasses[arg]` (key sets are disjoint, so the
association-list lookup agrees with the Go map). -/
def specialLookup (key : String) : Option String :=
  (specialClasses.find? (fun p => p.1 = key)).map (·.2)

/-- The inverse lookup performed by `CharClass.String`: the first table key
whose value is the given special tag.  All values in `specialClasses` are
distinct, so the result does not depend on iteration order. -/
def specialKeyFor (v : String) : Option String :=
  (specialClasses.find? (fun p => p.2 = v)).map (·.1)

/-- Read `n` hex digits (bytes) returning their value, as the hex loop of
`strconv.UnquoteChar`; fails on a non-hex byte or short input. -/
def hexDigits : Nat → List Nat → Option Nat
  | 0, _ => some 0
  | _ + 1, [] => none
  | n + 1, b :: rest =>
    let d : Option Nat :=
      if 48 ≤ b && b ≤ 57 then some (b - 48)
      else if 97 ≤ b && b ≤ 102 then some (b - 97 + 10)
      else if 65 ≤ b && b ≤ 70 then some (b - 65 + 10)
      else none
    match d with
    | none => none
    | some d =>
      match hexDigits n rest with
      | none => none
      | some v => some (d * 16 ^ n + v)

/-- Is `v` a valid Unicode scalar value (`utf8.ValidRune`)? -/
def validRune (v : Nat) : Bool :=
  v ≤ 0x10FFFF && !(0xD800 ≤ v && v ≤ 0xDFFF)

/-- Model of `strconv.UnquoteChar(s, 0)` restricted to the information the
charclass parser uses: the decoded value and the number of bytes consumed
(Go returns the remaining tail; the width is `len(s) - len(tail)`).
With quote byte 0, both `\'` and `\"` are syntax errors. -/
def goUnquoteChar (s : List Nat) : Except String (Nat × Nat) :=
  match s with
  | [] => .error "unquote: empty"
  | c :: rest =>
    if c ≥ 0x80 then
      let (r, w) := decodeRune s
      .ok (r, w)
    else if c ≠ 92 then .ok (c, 1)
    else
      match rest with
      | [] => .error "unquote: lone backslash"
      | e :: rest2 =>
        if e = 97 then .ok (7, 2)
        else if e = 98 then .ok (8, 2)
        else if e = 102 then .ok (12, 2)
        else if e = 110 then .ok (10, 2)
        else if e = 114 then .ok (13, 2)
        else if e = 116 then .ok (9, 2)
        else if e = 118 then .ok (11, 2)
        else if e = 120 || e = 117 || e = 85 then
          let n := if e = 120 then 2 else if e = 117 then 4 else 8
          match hexDigits n rest2 with
          | none => .error "unquote: bad hex"
          | some v =>
            if e = 120 then .ok (v, 2 + n)
            else if validRune v then .ok (v, 2 + n)
            else .error "unquote: invalid rune"
        else if 48 ≤ e && e ≤ 55 then
          match rest2 with
          | d2 :: d3 :: _ =>
            if 48 ≤ d2 && d2 ≤ 55 && 48 ≤ d3 && d3 ≤ 55 then
              let v := (e - 48) * 64 + (d2 - 48) * 8 + (d3 - 48)
              if v ≤ 255 then .ok (v, 4) else .error "unquote: octal overflow"
            else .error "unquote: bad octal"
          | _ => .error "unquote: short octal"
        else if e = 92 then .ok (92, 2)
        else .error "unquote: bad escape"

/-- Insert a rune into the member list (Go `Map[last] = true`). -/
def mapInsert (cc : CharClass) (c : Nat) : CharClass :=
  if cc.map.contains c then cc else { cc with map := cc.map ++ [c] }

/-- Close a range `start-r`, appending to R16 or R32 exactly as
charclass.go lines 140-149: a range must not cross the 16-bit boundary. -/
def addRange (cc : CharClass) (start r : Nat) : Except String CharClass :=
  let rt := cc.rangeTable.getD ⟨[], []⟩
  if start ≥ 0x10000 then
    .ok { cc with rangeTable := some { rt with r32 := rt.r32 ++ [⟨start, r, 1⟩] } }
  else if r < 0x10000 then
    .ok { cc with rangeTable := some { rt with r16 := rt.r16 ++ [⟨start, r, 1⟩] } }
  else .error "invalid char range across 16-bit and 32-bit boundary"

/-- Stable insertion of a 16-bit range into a list sorted by `lo`. -/
def insertR16 (r : Range16) : List Range16 → List Range16
  | [] => [r]
  | x :: xs => if x.lo ≤ r.lo then x :: insertR16 r xs else r :: x :: xs

/-- Stable insertion of a 32-bit range into a list sorted by `lo`. -/
def insertR32 (r : Range32) : List Range32 → List Range32
  | [] => [r]
  | x :: xs => if x.lo ≤ r.lo then x :: insertR32 r xs else r :: x :: xs

/-- The final `sort.Slice` calls of `charclass.Parse`, ordering ranges by
ascending `lo` (ties cannot arise from distinct valid ranges produced by
one parse with distinct starts; insertion sort fixes an order for them). -/
def sortRanges (cc : CharClass) : CharClass :=
  match cc.rangeTable with
  | none => cc
  | some rt =>
    some { r16 := rt.r16.foldl (fun acc r => insertR16 r acc) [],
           r32 := rt.r32.foldl (fun acc r => insertR32 r acc) [] } |>
    fun t => { cc with rangeTable := t }

/-- One pass of the scanning loop of `charclass.Parse` (charclass.go lines
102-163), with `last`/`start` the rune state variables (0 = unset, as in
the Go code, which uses rune 0 as the sentinel).  Fuel only guards
definability: every iteration advances `pos` by at least one byte. -/
def ccParseLoop : Nat → List Nat → Nat → Nat → Nat → CharClass →
    Except String CharClass
  | 0, _, _, _, _, _ => .error "internal: out of fuel"
  | fuel + 1, arg, pos, last, start, ret =>
    if pos < arg.length then
      let (r0, w0) := decodeRune (arg.drop pos)
      if r0 = runeError then .error "error parsing utf8 rune"
      else if r0 = 45 && pos ≠ 0 && pos + w0 ≠ arg.length then
        -- mark the start of the range: start := last, last := 0
        ccParseLoop fuel arg (pos + w0) 0 last ret
      else
        let esc : Except String (Nat × Nat) :=
          if r0 = 92 && pos + 1 < arg.length then
            let c1 := (arg.drop (pos + 1)).headD 0
            if c1 = 94 || c1 = 45 || c1 = 91 || c1 = 93 then .ok (c1, 2)
            else goUnquoteChar (arg.drop pos)
          else .ok (r0, w0)
        match esc with
        | .error e => .error e
        | .ok (r, w) =>
          if start ≠ 0 then
            if r ≤ start then .error "invalid interval"
            else
              match addRange ret start r with
              | .error e => .error e
              | .ok ret => ccParseLoop fuel arg (pos + w) 0 0 ret
          else
            let ret := if last ≠ 0 then mapInsert ret last else ret
            ccParseLoop fuel arg (pos + w) r 0 ret
    else
      let ret := if last ≠ 0 then mapInsert ret last else ret
      .ok (sortRanges ret)

/-- Count the leading carets from index 1 on, as the `skip` loop of
`charclass.Parse`. -/
def countCarets : List Nat → Nat
  | [] => 0
  | b :: rest => if b = 94 then countCarets rest + 1 else 0

/-- Model of `charclass.Parse` (fuel only feeds the caret-stripping
recursion and the scanning loop; `arg.length + 1` always suffices). -/
def ccParse : Nat → List Nat → Except String CharClass
  | 0, _ => .error "internal: out of fuel"
  | fuel + 1, arg =>
    match arg with
    | [] => .error "empty char class"
    | a :: rest =>
      if a = 94 then
        match rest with
        | [] => .ok ⟨[94], none, false, ""⟩
        | _ =>
          let skip := 1 + countCarets rest
          match ccParse fuel rest with
          | .error e => .error e
          | .ok r =>
            let r := { r with negated := true }
            if skip > 1 then .ok (mapInsert r 94) else .ok r
      else if a = 91 && arg.getLast? = some 93 then
        match specialLookup (String.mk (arg.map Char.ofNat)) with
        | none => .error "unknown char class"
        | some sp => .ok ⟨[], none, false, sp⟩
      else ccParseLoop fuel arg 0 0 0 ⟨[], none, false, ""⟩

/-- `charclass.Parse` at its natural fuel: every caret-stripping step and
every loop iteration advances by at least one byte, and the loop makes one
final zero-advance exit check, so `length + 2` steps always suffice. -/
def charclassParse (arg : List Nat) : Except String CharClass :=
  ccParse (arg.length + 2) arg

/-- Model of `strconv.IsPrint`.  Exact for ASCII runes (0x20..0x7E are
printable, all other runes below 0x80 are not); printability of
non-ASCII runes is decided in Go by Unicode tables that live outside
this repository and is modelled conservatively as false.  No theorem in
this file evaluates printing on a non-ASCII rune. -/
def goIsPrint (c : Nat) : Bool := 0x20 ≤ c && c ≤ 0x7E

/-- The lowercase hex digits used by strconv. -/
def hexChar (d : Nat) : Char :=
  if d < 10 then Char.ofNat (48 + d) else Char.ofNat (97 + d - 10)

/-- Fixed-width lowercase hex, most significant digit first. -/
def hexPad : Nat → Nat → List Char
  | 0, _ => []
  | n + 1, v => hexPad n (v / 16) ++ [hexChar (v % 16)]

/-- Model of charclass.go `runeToString`: `strconv.QuoteRune` with the
surrounding single quotes stripped, that is Go's `appendEscapedRune` with
quote byte `'` and ASCIIonly/graphicOnly false. -/
def runeToString (c0 : Nat) : String :=
  let c := if validRune c0 then c0 else runeError
  if c = 39 || c = 92 then String.mk [Char.ofNat 92, Char.ofNat c]
  else if goIsPrint c then String.mk [Char.ofNat c]
  else if c = 7 then "\\a"
  else if c = 8 then "\\b"
  else if c = 12 then "\\f"
  else if c = 10 then "\\n"
  else if c = 13 then "\\r"
  else if c = 9 then "\\t"
  else if c = 11 then "\\v"
  else if c < 0x20 || c = 0x7F then String.mk (Char.ofNat 92 :: Char.ofNat 120 :: hexPad 2 c)
  else if c < 0x10000 then String.mk (Char.ofNat 92 :: Char.ofNat 117 :: hexPad 4 c)
  else String.mk (Char.ofNat 92 :: Char.ofNat 85 :: hexPad 8 c)

/-- Model of `CharClass.String` (charclass.go lines 190-238).  Note that
when `special` is recognised the function returns the bare table key,
discarding the `^` that a negated class pushed first; when `special` is
set but unknown the Go loop falls through to the general printing. -/
def ccString (cc : CharClass) : String :=
  let neg : List String := if cc.negated then ["^"] else []
  match (if cc.special ≠ "" then specialKeyFor cc.special else none) with
  | some k => k
  | none =>
    let runes := (cc.map.filter (fun c => c ≠ 45 && c ≠ 94)).mergeSort (· ≤ ·)
    let scalars := runes.map (fun c => if c = 93 then "\\]" else runeToString c)
    let ranges :=
      match cc.rangeTable with
      | none => []
      | some rt =>
        rt.r16.map (fun r => runeToString r.lo ++ "-" ++ runeToString r.hi) ++
        rt.r32.map (fun r => runeToString r.lo ++ "-" ++ runeToString r.hi)
    let caret : List String := if cc.map.contains 94 then ["^"] else []
    let dash : List String := if cc.map.contains 45 then ["-"] else []
    String.join (neg ++ scalars ++ ranges ++ caret ++ dash)

/-! ## Parse-engine data model (parser2/parser2.go, parser/node.go) -/

/-- Parse errors.  The Go code builds `error` values whose string content
is used only for messages; the model keeps the structure that the engine
itself inspects (which error, the cached error, the fyi error), plus the
data embedded in the messages.  `rhsFail` corresponds to `rhsError`; the
Go value also records the RHS text and per-branch rule text used purely
for formatting. -/
inductive PErr where
  | eof : PErr
  | runeErr : PErr
  | litShort : List Nat → List Nat → PErr
  | litMismatch : List Nat → List Nat → PErr
  | classMismatch : Nat → PErr
  | negPredMatched : PErr
  | rhsFail : List PErr → Option PErr → PErr
  | matchedZero : Option PErr → PErr
  | unconsumedTail : List Nat → Option PErr → PErr
  | noRules : PErr
  | missingTopRule : PErr
  | noTree : PErr

/-- The scalar fields of `parser.Node`.  The `TreeAnnotations` map and the
bootstrap-only `Start` field are omitted: the parse engine never writes
either, and `Attach` only tests `TreeAnnotations` for emptiness, which is
constantly true during parsing. -/
structure PNodeData where
  label : String
  text : List Nat := []
  content : List (List Nat) := []
  pos : Nat := 0
  len : Nat := 0
  row : Nat := 0
  col : Nat := 0
  err : Option PErr := none
  annotations : List (String × String) := []

/-- `parser.Node`: scalar data plus the ordered children. -/
inductive PNode where
  | node (data : PNodeData) (children : List PNode)

/-- The scalar data of a node. -/
def PNode.data : PNode → PNodeData
  | .node d _ => d

/-- The children of a node. -/
def PNode.children : PNode → List PNode
  | .node _ c => c

/-- Replace the children of a node. -/
def PNode.withChildren : PNode → List PNode → PNode
  | .node d _, cs => .node d cs

/-- Replace the captured text of a node. -/
def PNode.withText : PNode → List Nat → PNode
  | .node d cs, t => .node { d with text := t } cs

instance : Inhabited PNode := ⟨.node { label := "" } []⟩

/-- `ParserOptions` of parser2.go. -/
structure ParserOptions where
  ignoreUnconsumedTail : Bool := false
  skipEmptyNodes : Bool := false
  longErrorMessage : Bool := false
  deriving DecidableEq, Repr

/-- `parser2.Term`: the Go struct carries one pointer/string per variant
with the invariant that exactly one is set, so it is embedded as a sum.
An RHS (`RHS.Terms [][]*Term`) is a list of alternatives, each a sequence
of terms.  A `special` rune is one of `*` (42), `?` (63), `+` (43); the
front end rewrites `.` into a CharClass term before handlers are built. -/
inductive Term where
  | parens (choices : List (List Term))
  | negPred (t : Term)
  | pred (t : Term)
  | special (inner : Term) (rune : Nat)
  | capture (choices : List (List Term))
  | charClass (cc : CharClass)
  | literal (s : List Nat)
  | ident (name : String)

/-- One rule: its name and its right-hand side.  The Go `Rule` also
caches the compiled handlers; the model interprets the RHS directly,
which clause 9 of the specification states is an equivalent
representation. -/
structure GRule where
  ident : String
  rhs : List (List Term)

/-- `parser2.Grammar`: the rules in insertion order.  `RuleNames` is the
name list of `rules`, and the `Rules` map is name lookup; `New` rejects
duplicate rule names, so first-match lookup agrees with the Go map. -/
structure Grammar where
  rules : List GRule
  options : ParserOptions := {}

/-- `g.Rules[name]`. -/
def findRule (g : Grammar) (name : String) : Option GRule :=
  g.rules.find? (fun ru => ru.ident = name)

/-- `parser2.Result`, the transient parse state.  The memo table
`map[int]map[*Rule]*parser.Node` is keyed here by position and rule name
(rule names are unique in any grammar accepted by `New`, so `*Rule`
identity and name coincide).  The row/column cache only feeds error
message formatting (`parserErrorf` has no caller in the engine), so it is
omitted.  The top of the node stack is the head of the list. -/
structure PState where
  source : List Nat
  memo : List ((Nat × String) × PNode) := []
  nodeStack : List PNode := []
  tree : Option PNode := none
  fyiError : Option PErr := none

instance : Inhabited PState := ⟨{ source := [] }⟩

/-- Memo lookup `r.memo[pos][rule]`. -/
def memoLookup (m : List ((Nat × String) × PNode)) (pos : Nat) (name : String) :
    Option PNode :=
  (m.find? (fun e => e.1.1 = pos && e.1.2 = name)).map (·.2)

/-- Memo store `memo[ru] = n` (Go map assignment overwrites). -/
def memoInsert (m : List ((Nat × String) × PNode)) (pos : Nat) (name : String)
    (n : PNode) : List ((Nat × String) × PNode) :=
  if m.any (fun e => e.1.1 = pos && e.1.2 = name) then
    m.map (fun e => if e.1.1 = pos && e.1.2 = name then (e.1, n) else e)
  else m ++ [((pos, name), n)]

/-- `Result.TopNode`.  Go exits the process when the stack is empty; that
state is unreachable in every context where `TopNode` is called (all
handlers run inside `apply`, which pushes a node first), so the model
returns a dummy node there. -/
def topNode (r : PState) : PNode := r.nodeStack.headD default

/-- Replace the children of the node on top of the stack (the rollback
operation `r.TopNode().Children = save`).  No-op on an empty stack, which
is unreachable (see `topNode`). -/
def setTopChildren (r : PState) (cs : List PNode) : PState :=
  match r.nodeStack with
  | [] => r
  | t :: rest => { r with nodeStack := t.withChildren cs :: rest }

/-- `Result.Attach` (parser2.go lines 448-466): drop trivially empty nodes
when `SkipEmptyNodes` is set and there is a parent; otherwise append the
node to the top node's children, or make it the result tree when the
stack is empty.  (Go exits the process when a root is attached twice;
from `Parse` that branch is unreachable because the top-level `apply`
reaches the empty stack exactly once.) -/
def attach (opts : ParserOptions) (r : PState) (n : PNode) : PState :=
  if opts.skipEmptyNodes && n.data.text.isEmpty && n.children.isEmpty &&
      n.data.annotations.isEmpty && !r.nodeStack.isEmpty then r
  else
    match r.nodeStack with
    | [] => { r with tree := some n }
    | t :: rest => { r with nodeStack := t.withChildren (t.children ++ [n]) :: rest }

/-! ## Leaf matchers -/

/-- `makeLiteralHandler`: match the literal bytes at `pos`.  (For the
nonempty literals that `New` builds, the `len(r.Source)-pos < len(lit)`
test in Go int arithmetic agrees with this Nat-subtraction test at every
position.) -/
def litHandler (lit : List Nat) (r : PState) (pos : Nat) :
    Nat × Option PErr × PState :=
  if r.source.length - pos < lit.length then
    (0, some (.litShort lit (r.source.drop pos)), r)
  else
    let next := (r.source.drop pos).take lit.length
    if next = lit then (lit.length, none, r)
    else (0, some (.litMismatch lit next), r)

/-- The `switch cc.Special` of `makeCharClassHandler`, with `uni` the
oracle for the `unicode.IsX` predicates (their tables live outside this
repository).  An unrecognised tag leaves `match` false, as the Go switch
does. -/
def specialMatchGo (uni : String → Nat → Bool) (sp : String) (c : Nat) : Bool :=
  if sp = "[:any:]" then true
  else if sp = "[:alnum:]" then uni "IsLetter" c || uni "IsDigit" c
  else if sp = "IsLetter" || sp = "IsNumber" || sp = "IsSpace" || sp = "IsLower" ||
      sp = "IsUpper" || sp = "IsPunct" || sp = "IsPrint" || sp = "IsGraphic" ||
      sp = "IsControl" then uni sp c
  else false

/-- `makeCharClassHandler` (parser2.go lines 645-710), forward direction.
Note the asymmetry faithfully kept from the source: only the
regular-map case rejects a decoded `utf8.RuneError`; the special case
(incl. the dot class) feeds whatever was decoded to the special check. -/
def ccHandler (uni : String → Nat → Bool) (cc : CharClass) (r : PState)
    (pos : Nat) : Nat × Option PErr × PState :=
  if cc.special ≠ "" then
    let cw := decodeRune (r.source.drop pos)
    if cw.2 = 0 then (0, some .eof, r)
    else
      let m := specialMatchGo uni cc.special cw.1
      let m := if cc.negated then !m else m
      if m then (cw.2, none, r) else (0, some (.classMismatch cw.1), r)
  else
    let cw := decodeRune (r.source.drop pos)
    if cw.2 = 0 then (0, some .eof, r)
    else if cw.1 = runeError then (0, some .runeErr, r)
    else
      let m := cc.map.contains cw.1 ||
        (match cc.rangeTable with
         | some rt => rtContains rt cw.1
         | none => false)
      let m := if cc.negated then !m else m
      if m then (cw.2, none, r) else (0, some (.classMismatch cw.1), r)

/-! ## The interpreter

Each compiled handler of parser2.go is a closure `(Result, pos) →
(consumed, error)` mutating the Result; the model threads the state and
returns `none` when the fuel runs out (the Go engine recurses without
bound on left-recursive grammars).  `Job` names which handler runs. -/

/-- A pending handler invocation. -/
inductive Job where
  /-- `makeRHSHandler rhs` -/
  | rhs (choices : List (List Term))
  /-- the retry loop inside the multi-choice `makeRHSHandler` closure -/
  | choicesLoop (save : List PNode) (rem : List (List Term))
      (details : List PErr)
  /-- `makeGroupHandler terms` -/
  | group (ts : List Term)
  /-- the sequencing loop inside the multi-term group closure -/
  | seqLoop (ts : List Term) (ww : Nat)
  /-- `makeTermHandler t` -/
  | term (t : Term)
  /-- the shared loop of `makeStarHandler` / `makePlusHandler` -/
  | repLoop (inner : Term) (ww : Nat) (save : List PNode) (isStar : Bool)
  /-- `Result.apply ru` -/
  | applyRule (ru : GRule)

/-- The parse interpreter.  Every recursive call decreases the fuel, so
the recursion is structural and concrete runs evaluate by `rfl`/`decide`;
any terminating Go execution is reproduced by all sufficiently large
fuels.  An empty choice list, an unknown rule reference and a special
rune other than `*?+` are rejected (or crash) at grammar-construction
time in Go, before any handler exists, so the interpreter maps them to
`none` ("no execution"). -/
def interp (g : Grammar) (uni : String → Nat → Bool) :
    Nat → Job → PState → Nat → Option (Nat × Option PErr × PState)
  | 0, _, _, _ => none
  | fuel + 1, job, r, pos =>
    match job with
    | .rhs choices =>
      match choices with
      | [] => none
      | [c] => interp g uni fuel (.group c) r pos
      | _ => interp g uni fuel (.choicesLoop (topNode r).children choices []) r pos
    | .choicesLoop save rem details =>
      match rem with
      | [] => none
      | c :: rest =>
        match interp g uni fuel (.group c) r pos with
        | none => none
        | some (w, none, r') => some (w, none, r')
        | some (w, some e, r') =>
          match rest with
          | [] => some (w, some (.rhsFail (details ++ [e]) r'.fyiError), r')
          | _ =>
            interp g uni fuel (.choicesLoop save rest (details ++ [e]))
              (setTopChildren r' save) pos
    | .group ts =>
      match ts with
      | [] => none
      | [t] => interp g uni fuel (.term t) r pos
      | _ => interp g uni fuel (.seqLoop ts 0) r pos
    | .seqLoop ts ww =>
      match ts with
      | [] => some (ww, none, r)
      | t :: rest =>
        match interp g uni fuel (.term t) r (pos + ww) with
        | none => none
        | some (_, some e, r') => some (ww, some e, r')
        | some (w, none, r') => interp g uni fuel (.seqLoop rest (ww + w)) r' pos
    | .term t =>
      match t with
      | .parens choices => interp g uni fuel (.rhs choices) r pos
      | .negPred t' =>
        match interp g uni fuel (.term t') r pos with
        | none => none
        | some (_, some _, r') => some (0, none, r')
        | some (_, none, r') => some (0, some .negPredMatched, r')
      | .pred t' =>
        match interp g uni fuel (.term t') r pos with
        | none => none
        | some (_, none, r') => some (0, none, r')
        | some (_, some e, r') => some (0, some e, r')
      | .special inner rn =>
        if rn = 42 then
          interp g uni fuel (.repLoop inner 0 (topNode r).children true) r pos
        else if rn = 63 then
          match interp g uni fuel (.term inner) r pos with
          | none => none
          | some (_, some _, r') => some (0, none, r')
          | some (w, none, r') => some (w, none, r')
        else if rn = 43 then
          match interp g uni fuel (.term inner) r pos with
          | none => none
          | some (w, some e, r') => some (w, some e, r')
          | some (w, none, r') =>
            interp g uni fuel (.repLoop inner w (topNode r').children false) r' pos
        else none
      | .capture choices =>
        match interp g uni fuel (.rhs choices) r pos with
        | none => none
        | some (w, some e, r') => some (w, some e, r')
        | some (w, none, r') =>
          some (w, none,
            match r'.nodeStack with
            | [] => r'
            | t :: rest =>
              let t2 := t.withText ((r'.source.drop pos).take w)
              { r' with nodeStack := t2 :: rest })
      | .charClass cc => some (ccHandler uni cc r pos)
      | .literal s => some (litHandler s r pos)
      | .ident name =>
        match findRule g name with
        | none => none
        | some ru => interp g uni fuel (.applyRule ru) r pos
    | .repLoop inner ww save isStar =>
      match interp g uni fuel (.term inner) r (pos + ww) with
      | none => none
      | some (_, some e, r') =>
        let r2 := setTopChildren r' save
        let r3 := if isStar && ww = 0 then { r2 with fyiError := some e } else r2
        some (ww, none, r3)
      | some (w, none, r') =>
        if w > 0 then
          interp g uni fuel (.repLoop inner (ww + w) (topNode r').children isStar) r' pos
        else some (ww, none, setTopChildren r' save)
    | .applyRule ru =>
      match memoLookup r.memo pos ru.ident with
      | some n =>
        match n.data.err with
        | some e => some (n.data.len, some e, r)
        | none => some (n.data.len, none, attach g.options r n)
      | none =>
        let fresh : PNode := .node { label := ru.ident, pos := pos } []
        match interp g uni fuel (.rhs ru.rhs)
            { r with nodeStack := fresh :: r.nodeStack } pos with
        | none => none
        | some (w, hErr, r1) =>
          match r1.nodeStack with
          | [] => none
          | n' :: rest =>
            let n2 : PNode := .node { n'.data with len := w, err := hErr } n'.children
            let r2 : PState :=
              { r1 with nodeStack := rest,
                        memo := memoInsert r1.memo pos ru.ident n2 }
            some (w, hErr, attach g.options r2 n2)

/-! ## Top-level parse (Grammar.Parse) -/

/-- `Grammar.Parse` (parser2.go lines 370-410).  The result is `none` when
the interpreter runs out of fuel (a Go execution that has not returned
yet); otherwise it is the pair (Result, error) that Go returns, with the
Result `none` exactly where Go returns a nil Result.  The nil-grammar
guard has no counterpart because the model has no nil `Grammar`.  The
`unconsumedTail` error stores the (possibly truncated) tail bytes that Go
embeds in the message; the literal "..." suffix is message text. -/
def goParse (g : Grammar) (uni : String → Nat → Bool) (fuel : Nat)
    (input : List Nat) : Option (Option PState × Option PErr) :=
  let r0 : PState := { source := input }
  match g.rules with
  | [] => some (none, some .noRules)
  | top :: _ =>
    match findRule g top.ident with
    | none => some (none, some .missingTopRule)
    | some ru =>
      match interp g uni fuel (.applyRule ru) r0 0 with
      | none => none
      | some (_, some e, r') => some (some r', some e)
      | some (w, none, r') =>
        if w = 0 ∧ 0 < input.length then
          some (some r', some (.matchedZero r'.fyiError))
        else if w ≠ input.length ∧ !g.options.ignoreUnconsumedTail then
          let errContent := input.drop w
          let trimmed :=
            if !g.options.longErrorMessage ∧ 13 < errContent.length then
              errContent.take 10
            else errContent
          some (some r', some (.unconsumedTail trimmed r'.fyiError))
        else
          match r'.tree with
          | none => some (none, some .noTree)
          | some _ => some (some r', none)

/-- The tree of a fully successful parse, `none` otherwise. -/
def parsedTree (g : Grammar) (uni : String → Nat → Bool) (fuel : Nat)
    (input : List Nat) : Option PNode :=
  match goParse g uni fuel input with
  | some (some r, none) => r.tree
  | _ => none

/-! ## The star combinator in isolation (makeStarHandler)

`makeStarHandler` is parametric in the inner matcher `h`, so it is
modelled as a standalone combinator over an arbitrary handler function.
`h` returning `none` models an inner matcher that does not terminate.
The Go loop itself has no iteration bound; `starIter` exposes the bound
as explicit fuel, and claim C7 proves that `source length + 1` iterations
always suffice thanks to the `w > 0` loop guard. -/

/-- The loop of `makeStarHandler` (parser2.go lines 750-772): iterate `h`
while it succeeds with positive width, accumulating `ww` and snapshotting
the top node's children after each successful iteration; on exit restore
the snapshot, record the terminating error as the fyi error when nothing
was consumed, and succeed. -/
def starIter (h : PState → Nat → Option (Nat × Option PErr × PState)) :
    Nat → PState → Nat → Nat → List PNode → Option (Nat × Option PErr × PState)
  | 0, _, _, _, _ => none
  | k + 1, r, pos, ww, save =>
    match h r (pos + ww) with
    | none => none
    | some (_, some e, r') =>
      let r2 := setTopChildren r' save
      let r3 := if ww = 0 then { r2 with fyiError := some e } else r2
      some (ww, none, r3)
    | some (w, none, r') =>
      if w > 0 then starIter h k r' pos (ww + w) (topNode r').children
      else some (ww, none, setTopChildren r' save)

/-- `makeStarHandler h` at position `pos`, with the iteration budget that
C7 proves sufficient for progress-bounded inner matchers. -/
def makeStarHandlerGo (h : PState → Nat → Option (Nat × Option PErr × PState))
    (r : PState) (pos : Nat) : Option (Nat × Option PErr × PState) :=
  starIter h (r.source.length + 1) r pos 0 (topNode r).children

/-! ## Content annotator (Result.ComputeContent) and reconstruction -/

/-- `countRowCol` (parser2.go lines 839-849): rows are 1-based, columns
0-based and counted in bytes. -/
def countRowCol (s : List Nat) (row col : Nat) : Nat × Nat :=
  s.foldl (fun rc b => if b = 10 then (rc.1 + 1, 0) else (rc.1, rc.2 + 1)) (row, col)

/-- How a `computeContent` run can abort: fuel exhaustion (model artifact)
or a Go slice-bounds panic from `r.Source[a:b]` with `a > b` or
`b > len`. -/
inductive CCErr where
  | fuel : CCErr
  | slicePanic : CCErr
  deriving DecidableEq, Repr

/-- Work item for the content walk: one node, or the child loop. -/
inductive CCJob where
  | one (n : PNode)
  | many (ns : List PNode)

/-- `Result.computeContent` (parser2.go lines 853-871) as a fuel-indexed
walk.  For `.one n` called with threaded byte position `pos` it counts
rows over `Source[pos:n.Pos]`, sets row/col, walks the children
interleaving the content pieces, and appends the final piece
`Source[pos':n.Pos+n.Len]`.  Returns (pieces produced for the parent,
rewritten nodes, row, col, final position). -/
def ccRun (src : List Nat) :
    Nat → CCJob → Nat → Nat → Nat →
    Except CCErr (List (List Nat) × List PNode × Nat × Nat × Nat)
  | 0, _, _, _, _ => .error .fuel
  | fuel + 1, .one n, pos, row, col =>
    match goSlice src pos n.data.pos with
    | none => .error .slicePanic
    | some piece0 =>
      let rc1 := countRowCol piece0 row col
      match ccRun src fuel (.many n.children) n.data.pos rc1.1 rc1.2 with
      | .error e => .error e
      | .ok (pieces, children', row2, col2, pos2) =>
        match goSlice src pos2 (n.data.pos + n.data.len) with
        | none => .error .slicePanic
        | some lastPiece =>
          let rc3 := countRowCol lastPiece row2 col2
          let newContent := n.data.content ++ pieces ++ [lastPiece]
          let d2 := { n.data with row := rc1.1, col := rc1.2, content := newContent }
          .ok ([], [.node d2 children'], rc3.1, rc3.2, n.data.pos + n.data.len)
  | _ + 1, .many [], pos, row, col => .ok ([], [], row, col, pos)
  | fuel + 1, .many (ch :: rest), pos, row, col =>
    match goSlice src pos ch.data.pos with
    | none => .error .slicePanic
    | some piece =>
      let rc1 := countRowCol piece row col
      match ccRun src fuel (.one ch) ch.data.pos rc1.1 rc1.2 with
      | .error e => .error e
      | .ok (_, chs', row2, col2, _) =>
        match ccRun src fuel (.many rest) (ch.data.pos + ch.data.len) row2 col2 with
        | .error e => .error e
        | .ok (pieces, rest', row3, col3, pos3) =>
          .ok (piece :: pieces, chs' ++ rest', row3, col3, pos3)

/-- `Result.ComputeContent`: run the walk on the tree from position 0,
row 1, column 0. -/
def goComputeContent (fuel : Nat) (src : List Nat) (n : PNode) :
    Except CCErr PNode :=
  match ccRun src fuel (.one n) 0 1 0 with
  | .error e => .error e
  | .ok (_, [n'], _, _, _) => .ok n'
  | .ok _ => .error .fuel

/-- `Node.reconstructContent` (parser/node.go lines 157-170) as a
fuel-indexed walk.  Returns the bytes written to the buffer and whether
this node reported an error; exactly as in the source, a child's error is
ignored by its parent (the recursive call's result is discarded), so the
child's partial output stays in the buffer. -/
def reconRun : Nat → PNode → List Nat × Bool
  | 0, _ => ([], true)
  | fuel + 1, n =>
    if n.data.content.length = 0 then ([], true)
    else if n.data.content.length ≠ n.children.length + 1 then ([], true)
    else
      let body := n.children.foldl
        (fun (acc : List Nat × Nat) ch =>
          let piece := n.data.content.getD acc.2 []
          (acc.1 ++ piece ++ (reconRun fuel ch).1, acc.2 + 1))
        ([], 0)
      (body.1 ++ n.data.content.getD n.children.length [], false)

/-- `Node.ReconstructContent`: empty string plus the error when the root
reports one, the buffer contents otherwise. -/
def goReconstructContent (fuel : Nat) (n : PNode) : Option (List Nat) :=
  let res := reconRun fuel n
  if res.2 then none else some res.1

/-! ## Semantic constructor (parser2/construct.go)

The Go constructor passes `interface{}` values around and compares them
with `reflect`.  The model's `SVal` is the tagged-any value suggested by
spec clause 9: a string, an opaque user value carrying its runtime type
tag, or a slice carrying its element type tag.  A user callback is
embedded as a function that, given the node label, the node and the
children-value map, returns the list of accessor calls it performs and
its result; the effects of those calls (marking labels accessed,
recording accessor errors) are replayed by `runCalls` against the same
accessor semantics as the Go methods. -/

/-- A tagged semantic value (`interface{}`). -/
inductive SVal where
  | vstr (s : String)
  | tagged (ty : String)
  | vlist (elemTy : String) (vals : List SVal)

/-- The runtime type tag (`reflect.TypeOf`). -/
def SVal.typeTag : SVal → String
  | .vstr _ => "string"
  | .tagged t => t
  | .vlist t _ => "[]" ++ t

/-- Does a type tag denote a slice type (`Kind() == reflect.Slice`)? -/
def isSliceTag (t : String) : Bool := t.startsWith "[]"

/-- `AccessorOptions`. -/
structure AccessorOptions where
  errorOnUnusedChild : Bool := false
  deriving DecidableEq, Repr

/-- One accessor call performed by a callback.  `get`/`getTyped` carry
the type tag of the Go type instance argument (`none` for a nil
interface). -/
inductive AccCall where
  | str (name : String)
  | getString (name : String)
  | get (name : String) (ty : Option String)
  | getTyped (name : String) (ty : Option String)
  | child (i : Nat)

/-- A user callback: label, node and children map in; the accessor calls
it performs and its return value out. -/
abbrev Cb := String → PNode → List (String × SVal) →
  List AccCall × Except String (Option SVal)

/-- The error, if any, of `accessor.GetString` (construct.go 74-86). -/
def getStringRes (m : List (String × SVal)) (name : String) : Option String :=
  match m.find? (fun p => p.1 = name) with
  | none => some "expected string, got none"
  | some (_, .vstr _) => none
  | some _ => some "expected string, got wrong type"

/-- The error, if any, of `accessor.GetTyped` (construct.go 104-148).
The two trailing reshape branches can panic in Go when element types are
not assignable; they are only reached with compatible types by the
engine's own callbacks, and the model treats them as the successful
reshape. -/
def getTypedRes (m : List (String × SVal)) (name : String)
    (ty : Option String) : Option String :=
  match m.find? (fun p => p.1 = name) with
  | none =>
    match ty with
    | none => none
    | some t => if isSliceTag t then none else some "expected child, got none"
  | some (_, val) =>
    match ty with
    | none => none
    | some t =>
      if t = val.typeTag then none
      else if t = "[]" ++ val.typeTag then none
      else if isSliceTag t then none
      else some "type mismatch"

/-- Replay a call list against the children map, producing the
`accessed` label set and the recorded `errs` (construct.go: `String` and
`Get` record the errors their `Get*` counterparts return; `GetString` and
`GetTyped` hand the error to the caller without recording; `Child`
records an out-of-bounds error).  All four getters mark the label
accessed before looking it up. -/
def runCalls (n : PNode) (m : List (String × SVal)) (calls : List AccCall) :
    List String × List String :=
  calls.foldl
    (fun acc call =>
      match call with
      | .str name => (acc.1 ++ [name], acc.2 ++ (getStringRes m name).toList)
      | .getString name => (acc.1 ++ [name], acc.2)
      | .get name ty => (acc.1 ++ [name], acc.2 ++ (getTypedRes m name ty).toList)
      | .getTyped name _ => (acc.1 ++ [name], acc.2)
      | .child i =>
        (acc.1, acc.2 ++ (if i < n.children.length then [] else ["child out of bounds"])))
    ([], [])

/-- The value-merging step of `Construct` (construct.go 203-222): first
value stored directly, a second value of the same type starts a slice, a
matching slice is appended to, anything else is an error. -/
def coalesce (hv v : SVal) : Except String SVal :=
  if hv.typeTag = v.typeTag then .ok (.vlist v.typeTag [hv, v])
  else
    match hv with
    | .vlist t vs =>
      if t = v.typeTag then .ok (.vlist t (vs ++ [v]))
      else .error "incompatible types"
    | _ => .error "incompatible types"

/-- Store a constructed child value under its label. -/
def addChildVal (m : List (String × SVal)) (label : String) (v : SVal) :
    Except String (List (String × SVal)) :=
  match m.find? (fun p => p.1 = label) with
  | none => .ok (m ++ [(label, v)])
  | some (_, hv) =>
    match coalesce hv v with
    | .error e => .error e
    | .ok nv => .ok (m.map (fun p => if p.1 = label then (p.1, nv) else p))

/-- Result of a construction work item. -/
inductive COut where
  | val (v : Option SVal)
  | cmap (m : List (String × SVal))

/-- Construction work item: one node, or the loop over remaining children
threading the children map. -/
inductive CJob where
  | one (n : PNode)
  | kids (ns : List PNode) (m : List (String × SVal))

/-- `Construct` (construct.go 187-233) as a fuel-indexed walk: build the
children map depth-first (skipping nil child values), run the callback,
then `accessor.Check` (construct.go 150-166): the recorded errors plus,
when `errorOnUnusedChild` is set, one error per map label the callback
never accessed; any error fails the construction.  `none` is fuel
exhaustion, reproduced by no terminating Go execution. -/
def consRun (cb : Cb) (opts : AccessorOptions) :
    Nat → CJob → Option (Except String COut)
  | 0, _ => none
  | _ + 1, .kids [] m => some (.ok (.cmap m))
  | fuel + 1, .kids (ch :: rest) m =>
    match consRun cb opts fuel (.one ch) with
    | none => none
    | some (.error e) => some (.error e)
    | some (.ok (.cmap _)) => none
    | some (.ok (.val none)) => consRun cb opts fuel (.kids rest m)
    | some (.ok (.val (some v))) =>
      match addChildVal m ch.data.label v with
      | .error e => some (.error e)
      | .ok m2 => consRun cb opts fuel (.kids rest m2)
  | fuel + 1, .one n =>
    match consRun cb opts fuel (.kids n.children []) with
    | none => none
    | some (.error e) => some (.error e)
    | some (.ok (.val _)) => none
    | some (.ok (.cmap m)) =>
      let out := cb n.data.label n m
      let rc := runCalls n m out.1
      match out.2 with
      | .error e => some (.error e)
      | .ok v =>
        let unused :=
          if opts.errorOnUnusedChild then
            (m.filter (fun p => !(rc.1.contains p.1))).map
              (fun p => "child " ++ p.1 ++ " was not used during conversion")
          else []
        if (rc.2 ++ unused).isEmpty then some (.ok (.val v))
        else some (.error "check failed")

/-- `parser2.Construct` at the top level. -/
def goConstruct (cb : Cb) (opts : AccessorOptions) (fuel : Nat) (n : PNode) :
    Option (Except String (Option SVal)) :=
  match consRun cb opts fuel (.one n) with
  | some (.ok (.val v)) => some (.ok v)
  | some (.error e) => some (.error e)
  | _ => none

/-- Specification-side predicate for claim C8: the tree contains a node
one of whose successfully built children-map entries is never accessed by
the callback's calls.  It mirrors the recursion of `consRun` so that the
two walks stay aligned. -/
def hasUnusedRun (cb : Cb) (opts : AccessorOptions) : Nat → CJob → Bool
  | 0, _ => false
  | _ + 1, .kids [] _ => false
  | fuel + 1, .kids (ch :: rest) m =>
    hasUnusedRun cb opts fuel (.one ch) || hasUnusedRun cb opts fuel (.kids rest m)
  | fuel + 1, .one n =>
    (match consRun cb opts fuel (.kids n.children []) with
     | some (.ok (.cmap m)) =>
       let out := cb n.data.label n m
       let rc := runCalls n m out.1
       m.any (fun p => !(rc.1.contains p.1))
     | _ => false) ||
    hasUnusedRun cb opts fuel (.kids n.children [])

/-! ## Concrete grammars, states and callbacks used by the claims -/

/-- A trivial oracle for the unicode predicates; the concrete grammars
below use no named character classes, so any oracle gives the same runs. -/
def uniFalse : String → Nat → Bool := fun _ _ => false

/-- The grammar `A <- B? C / B <- 'a' 'b' / C <- 'a' 'x'` (in model form,
as `New` would build it). -/
def gBug : Grammar :=
  { rules := [⟨"A", [[.special (.ident "B") 63, .ident "C"]]⟩,
              ⟨"B", [[.literal [97], .literal [98]]]⟩,
              ⟨"C", [[.literal [97], .literal [120]]]⟩] }

/-- The tree of the successful parse of "ax" by `gBug`. -/
def bugTree : PNode := (parsedTree gBug uniFalse 50 (asciiBytes "ax")).getD default

/-- Claim-side checker for C2: children appear strictly in order with
non-overlapping covered ranges, starting no earlier than `lo`. -/
def spansOk (lo : Nat) : List PNode → Bool
  | [] => true
  | c :: rest => (lo ≤ c.data.pos) && spansOk (c.data.pos + c.data.len) rest

/-- Claim-side checker for C2 at one node: ordered, non-overlapping
children whose ranges lie within the parent's range. -/
def childrenInRange (t : PNode) : Bool :=
  spansOk t.data.pos t.children &&
  t.children.all (fun c => c.data.pos + c.data.len ≤ t.data.pos + t.data.len)

/-- The rule `Q <- 'x'?`. -/
def ruQ : GRule := ⟨"Q", [[.special (.literal [120]) 63]]⟩

/-- Grammar `Q <- 'x'?` with `IgnoreUnconsumedTail` set, used to witness
claim C4. -/
def gQOpt : Grammar :=
  { rules := [ruQ], options := { ignoreUnconsumedTail := true } }

/-- The initial parse state for input "y". -/
def st4 : PState := { source := [121] }

/-- The outcome of applying `ruQ` to "y" (a zero-width success), and its
final state: used to discharge the hypotheses of claim C4's theorem. -/
def r4wit : PState :=
  ((interp gQOpt uniFalse 10 (.applyRule ruQ) st4 0).getD (0, none, default)).2.2

/-- The rule `B <- 'y'`, used for the C10 failing input and the C6
witness. -/
def ruB10 : GRule := ⟨"B", [[.literal [121]]]⟩

/-- Single-rule grammar `B <- 'y'`. -/
def gB10 : Grammar := { rules := [ruB10] }

/-- A parse state with one parent node on the stack and source "x". -/
def st10 : PState :=
  { source := [120], nodeStack := [.node { label := "P" } []] }

/-- An inner matcher for the C7 witness: `makeLiteralHandler "a"` wrapped
into the optional-result type of a handler. -/
def hLitA : PState → Nat → Option (Nat × Option PErr × PState) :=
  fun r p => some (litHandler [97] r p)

/-- A state with an empty memo used by the C6 witness. -/
def st6 : PState := { source := [121], nodeStack := [.node { label := "P" } []] }

/-- A state whose memo caches a failure of rule "B" at position 0. -/
def st6hit : PState :=
  { source := [121], nodeStack := [.node { label := "P" } []],
    memo := [((0, "B"), .node { label := "B", len := 0, err := some .negPredMatched } [])] }

/-- The node cached in `st6hit`'s memo. -/
def nHit : PNode := (memoLookup st6hit.memo 0 ruB10.ident).getD default

/-- `st6` with the fresh node for rule "B" pushed, the state on which
`apply` runs the rule body in the C6 memo-miss witness. -/
def push6 : PState :=
  { st6 with nodeStack := .node { label := ruB10.ident, pos := 0 } [] :: st6.nodeStack }

/-- The body run of rule "B" on `push6` and its components. -/
def body6 : Option (Nat × Option PErr × PState) :=
  interp gB10 uniFalse 4 (.rhs ruB10.rhs) push6 0

def w6 : Nat := (body6.getD (0, none, default)).1

def e6 : Option PErr := (body6.getD (0, none, default)).2.1

def r6 : PState := (body6.getD (0, none, default)).2.2

def n6 : PNode := r6.nodeStack.headD default

/-- The result state of the C9 witness parse. -/
def r9wit : PState :=
  ((goParse gBug uniFalse 50 (asciiBytes "ax")).getD (none, none)).1.getD default

/-- A state with source "aab" for the C7 witness. -/
def stW : PState := { source := [97, 97, 98] }

/-- The dot class (what the front end builds for `.`). -/
def anyCC : CharClass := ⟨[], none, false, "[:any:]"⟩

/-- A parse state whose source is the single invalid UTF-8 byte 0xFF. -/
def stFF : PState := { source := [255] }

/-- The character-class matcher as described by the amended claim C5:
fail at end of input; for classes without a special tag, also fail when
decoding yields the replacement scalar; otherwise the decoded character
is a member iff the special check passes (for special-tagged classes,
including the dot) or the scalar set or some range contains it (for the
others), inverted for negated classes; consume the decoded width on
membership and fail otherwise. -/
def ccMatcherSpec (uni : String → Nat → Bool) (cc : CharClass) (r : PState)
    (pos : Nat) : Nat × Option PErr × PState :=
  let cw := decodeRune (r.source.drop pos)
  if cw.2 = 0 then (0, some .eof, r)
  else if cc.special = "" ∧ cw.1 = runeError then (0, some .runeErr, r)
  else
    let member :=
      if cc.special ≠ "" then specialMatchGo uni cc.special cw.1
      else cc.map.contains cw.1 ||
        (match cc.rangeTable with
         | some rt => rtContains rt cw.1
         | none => false)
    let member := if cc.negated then !member else member
    if member then (cw.2, none, r) else (0, some (.classMismatch cw.1), r)

/-- A two-node tree: parent "P" with one child "C". -/
def treePC : PNode := .node { label := "P" } [.node { label := "C" } []]

/-- C8 counterexample callback: returns nil for "C" (so the child value
map of "P" stays empty), a value for every other label, and performs no
accessor calls at all. -/
def cbNil : Cb := fun label _ _ =>
  ([], .ok (if label = "C" then none else some (.tagged "v")))

/-- C8 amended-claim witness callback: gives every node a value and never
accesses any child label. -/
def cbVal : Cb := fun _ _ _ => ([], .ok (some (.tagged "v")))

end Peg

namespace Peg

/-! ## Helper lemmas -/

theorem setTopChildren_source (r : PState) (cs : List PNode) :
    (setTopChildren r cs).source = r.source := by
  unfold setTopChildren
  cases r.nodeStack <;> rfl

theorem setTopChildren_len (r : PState) (cs : List PNode) :
    (setTopChildren r cs).nodeStack.length = r.nodeStack.length := by
  unfold setTopChildren
  cases h : r.nodeStack <;> simp [h]

theorem setTopChildren_tail (r : PState) (cs : List PNode) :
    (setTopChildren r cs).nodeStack.tail = r.nodeStack.tail := by
  unfold setTopChildren
  cases h : r.nodeStack <;> simp [h]

theorem attach_source (opts : ParserOptions) (r : PState) (n : PNode) :
    (attach opts r n).source = r.source := by
  unfold attach
  split
  · rfl
  · cases r.nodeStack <;> rfl

theorem attach_len (opts : ParserOptions) (r : PState) (n : PNode) :
    (attach opts r n).nodeStack.length = r.nodeStack.length := by
  unfold attach
  split
  · rfl
  · cases h : r.nodeStack <;> simp [h]

theorem attach_tail (opts : ParserOptions) (r : PState) (n : PNode) :
    (attach opts r n).nodeStack.tail = r.nodeStack.tail := by
  unfold attach
  split
  · rfl
  · cases h : r.nodeStack <;> simp [h]

theorem ccHandler_state (uni : String → Nat → Bool) (cc : CharClass)
    (r : PState) (pos : Nat) : (ccHandler uni cc r pos).2.2 = r := by
  unfold ccHandler
  dsimp only
  repeat' split
  all_goals rfl

theorem litHandler_state (lit : List Nat) (r : PState) (pos : Nat) :
    (litHandler lit r pos).2.2 = r := by
  unfold litHandler
  dsimp only
  repeat' split
  all_goals rfl

/-- Stack-shape invariant of every handler: a terminating run preserves
the source, the node-stack depth, and every stack entry below the top
(handlers only mutate the node pushed for them or their own top).  This
is the load-bearing fact behind `Result.apply`'s push/pop balance. -/
theorem interp_shape (g : Grammar) (uni : String → Nat → Bool) :
    ∀ (k : Nat) (job : Job) (r : PState) (pos w : Nat) (e : Option PErr)
      (r' : PState), interp g uni k job r pos = some (w, e, r') →
      r'.source = r.source ∧ r'.nodeStack.length = r.nodeStack.length ∧
        r'.nodeStack.tail = r.nodeStack.tail := by
  intro k
  induction k with
  | zero => intro job r pos w e r' h; simp [interp] at h
  | succ k ih =>
    intro job r pos w e r' h
    cases job with
    | rhs choices =>
      match choices with
      | [] => simp [interp] at h
      | [c] => exact ih _ _ _ _ _ _ h
      | c1 :: c2 :: cs => exact ih _ _ _ _ _ _ h
    | choicesLoop save rem details =>
      match rem with
      | [] => simp [interp] at h
      | c :: rest =>
        simp only [interp] at h
        cases hg : interp g uni k (.group c) r pos with
        | none => rw [hg] at h; exact absurd h (by simp)
        | some out =>
          obtain ⟨w1, e1, r1⟩ := out
          rw [hg] at h
          have h1 := ih _ _ _ _ _ _ hg
          cases e1 with
          | none =>
            simp only at h
            cases h
            exact h1
          | some e1 =>
            match rest with
            | [] =>
              simp only at h
              cases h
              exact h1
            | c2 :: rest2 =>
              simp only at h
              have h2 := ih _ _ _ _ _ _ h
              refine ⟨?_, ?_, ?_⟩
              · rw [h2.1, setTopChildren_source, h1.1]
              · rw [h2.2.1, setTopChildren_len, h1.2.1]
              · rw [h2.2.2, setTopChildren_tail, h1.2.2]
    | group ts =>
      match ts with
      | [] => simp [interp] at h
      | [t] => exact ih _ _ _ _ _ _ h
      | t1 :: t2 :: ts => exact ih _ _ _ _ _ _ h
    | seqLoop ts ww =>
      match ts with
      | [] =>
        simp only [interp] at h
        cases h
        exact ⟨rfl, rfl, rfl⟩
      | t :: rest =>
        simp only [interp] at h
        cases hg : interp g uni k (.term t) r (pos + ww) with
        | none => rw [hg] at h; exact absurd h (by simp)
        | some out =>
          obtain ⟨w1, e1, r1⟩ := out
          rw [hg] at h
          have h1 := ih _ _ _ _ _ _ hg
          cases e1 with
          | some e1 =>
            simp only at h
            cases h
            exact h1
          | none =>
            simp only at h
            have h2 := ih _ _ _ _ _ _ h
            exact ⟨h2.1.trans h1.1, h2.2.1.trans h1.2.1, h2.2.2.trans h1.2.2⟩
    | term t =>
      cases t with
      | parens choices => exact ih _ _ _ _ _ _ h
      | negPred t' =>
        simp only [interp] at h
        cases hg : interp g uni k (.term t') r pos with
        | none => rw [hg] at h; exact absurd h (by simp)
        | some out =>
          obtain ⟨w1, e1, r1⟩ := out
          rw [hg] at h
          have h1 := ih _ _ _ _ _ _ hg
          cases e1 <;> simp only at h <;> cases h <;> exact h1
      | pred t' =>
        simp only [interp] at h
        cases hg : interp g uni k (.term t') r pos with
        | none => rw [hg] at h; exact absurd h (by simp)
        | some out =>
          obtain ⟨w1, e1, r1⟩ := out
          rw [hg] at h
          have h1 := ih _ _ _ _ _ _ hg
          cases e1 <;> simp only at h <;> cases h <;> exact h1
      | special inner rn =>
        simp only [interp] at h
        by_cases h42 : rn = 42
        · simp only [h42, if_pos rfl] at h
          exact ih _ _ _ _ _ _ h
        · rw [if_neg h42] at h
          by_cases h63 : rn = 63
          · simp only [h63, if_pos rfl] at h
            cases hg : interp g uni k (.term inner) r pos with
            | none => rw [hg] at h; exact absurd h (by simp)
            | some out =>
              obtain ⟨w1, e1, r1⟩ := out
              rw [hg] at h
              have h1 := ih _ _ _ _ _ _ hg
              cases e1 <;> simp only at h <;> cases h <;> exact h1
          · rw [if_neg h63] at h
            by_cases h43 : rn = 43
            · simp only [h43, if_pos rfl] at h
              cases hg : interp g uni k (.term inner) r pos with
              | none => rw [hg] at h; exact absurd h (by simp)
              | some out =>
                obtain ⟨w1, e1, r1⟩ := out
                rw [hg] at h
                have h1 := ih _ _ _ _ _ _ hg
                cases e1 with
                | some e1 =>
                  simp only at h
                  cases h
                  exact h1
                | none =>
                  simp only at h
                  have h2 := ih _ _ _ _ _ _ h
                  exact ⟨h2.1.trans h1.1, h2.2.1.trans h1.2.1, h2.2.2.trans h1.2.2⟩
            · rw [if_neg h43] at h
              exact absurd h (by simp)
      | capture choices =>
        simp only [interp] at h
        cases hg : interp g uni k (.rhs choices) r pos with
        | none => rw [hg] at h; exact absurd h (by simp)
        | some out =>
          obtain ⟨w1, e1, r1⟩ := out
          rw [hg] at h
          have h1 := ih _ _ _ _ _ _ hg
          cases e1 with
          | some e1 =>
            simp only at h
            cases h
            exact h1
          | none =>
            simp only at h
            cases h
            cases hs : r1.nodeStack with
            | nil => simpa [hs] using h1
            | cons t rest =>
              refine ⟨h1.1, ?_, ?_⟩
              · have := h1.2.1; rw [hs] at this; simpa [hs] using this
              · have := h1.2.2; rw [hs] at this; simpa [hs] using this
      | charClass cc =>
        simp only [interp] at h
        injection h with h
        have hr : r' = (ccHandler uni cc r pos).2.2 := by rw [h]
        rw [ccHandler_state] at hr
        subst hr
        exact ⟨rfl, rfl, rfl⟩
      | literal s =>
        simp only [interp] at h
        injection h with h
        have hr : r' = (litHandler s r pos).2.2 := by rw [h]
        rw [litHandler_state] at hr
        subst hr
        exact ⟨rfl, rfl, rfl⟩
      | ident name =>
        simp only [interp] at h
        cases hf : findRule g name with
        | none => rw [hf] at h; exact absurd h (by simp)
        | some ru => rw [hf] at h; exact ih _ _ _ _ _ _ h
    | repLoop inner ww save isStar =>
      simp only [interp] at h
      cases hg : interp g uni k (.term inner) r (pos + ww) with
      | none => rw [hg] at h; exact absurd h (by simp)
      | some out =>
        obtain ⟨w1, e1, r1⟩ := out
        rw [hg] at h
        have h1 := ih _ _ _ _ _ _ hg
        cases e1 with
        | some e1 =>
          simp only at h
          cases h
          constructor
          · split <;> simp [setTopChildren_source, h1.1]
          constructor
          · split <;> simp [setTopChildren_len, h1.2.1]
          · split <;> simp [setTopChildren_tail, h1.2.2]
        | none =>
          simp only at h
          split at h
          · have h2 := ih _ _ _ _ _ _ h
            exact ⟨h2.1.trans h1.1, h2.2.1.trans h1.2.1, h2.2.2.trans h1.2.2⟩
          · cases h
            refine ⟨?_, ?_, ?_⟩
            · rw [setTopChildren_source, h1.1]
            · rw [setTopChildren_len, h1.2.1]
            · rw [setTopChildren_tail, h1.2.2]
    | applyRule ru =>
      simp only [interp] at h
      cases hm : memoLookup r.memo pos ru.ident with
      | some n =>
        rw [hm] at h
        simp only at h
        cases he : n.data.err with
        | some e0 =>
          rw [he] at h
          simp only at h
          cases h
          exact ⟨rfl, rfl, rfl⟩
        | none =>
          rw [he] at h
          simp only at h
          cases h
          exact ⟨attach_source _ _ _, attach_len _ _ _, attach_tail _ _ _⟩
      | none =>
        rw [hm] at h
        simp only at h
        cases hg : interp g uni k (.rhs ru.rhs)
            { r with nodeStack := PNode.node { label := ru.ident, pos := pos } [] :: r.nodeStack } pos with
        | none => rw [hg] at h; exact absurd h (by simp)
        | some out =>
          obtain ⟨w1, e1, r1⟩ := out
          rw [hg] at h
          simp only at h
          have h1 := ih _ _ _ _ _ _ hg
          cases hs : r1.nodeStack with
          | nil => rw [hs] at h; exact absurd h (by simp)
          | cons n2 rest =>
            rw [hs] at h
            simp only at h
            cases h
            have htail : rest = r.nodeStack := by
              have := h1.2.2
              rw [hs] at this
              simpa using this
            refine ⟨?_, ?_, ?_⟩
            · rw [attach_source]; exact h1.1
            · rw [attach_len]; simp [htail]
            · rw [attach_tail]; simp [htail]

/-! ## Claim theorems -/

/-- C3 (code_bug evaluation).  The claim states the CharClass
parse/print round-trip `Parse(c.String()) == c`, which is also the
documented contract of `CharClass.String` ("a canonical string
representation that can be parsed back to the CharClass").  The code
violates it: for the negated special class parsed from `^[:alpha:]`,
`String` hits the special-class branch and returns the bare table key,
discarding the negation caret (and the claimed canonical form, which
puts the caret first), so parsing the printed form yields a
non-negated class. -/
theorem c3_negated_special_class_not_canonical :
    charclassParse (asciiBytes "^[:alpha:]") = .ok ⟨[], none, true, "IsLetter"⟩ ∧
    ccString ⟨[], none, true, "IsLetter"⟩ = "[:alpha:]" ∧
    charclassParse (asciiBytes "[:alpha:]") = .ok ⟨[], none, false, "IsLetter"⟩ ∧
    (⟨[], none, true, "IsLetter"⟩ : CharClass) ≠ ⟨[], none, false, "IsLetter"⟩ := by
  refine ⟨rfl, rfl, rfl, by decide⟩

/-- C2 (code_bug evaluation).  With grammar
`A <- B? C / B <- 'a' 'b' / C <- 'a' 'x'` and input "ax", `Parse`
succeeds, yet the root's children cover the byte ranges [0,1) and [0,2):
out of order and overlapping, violating the claimed invariant.  The root
cause is that `apply` attaches a node even when the rule failed, and the
`?` (and predicate) handlers do not roll children back, unlike the
choice and star handlers — and unlike the older engine in
parser/parser.go, which attaches only on success although parser2 is
documented as feature-equivalent to it. -/
theorem c2_child_ranges_violated :
    parsedTree gBug uniFalse 50 (asciiBytes "ax") = some bugTree ∧
    bugTree.children.map (fun c => (c.data.label, c.data.pos, c.data.len)) =
      [("B", 0, 1), ("C", 0, 2)] ∧
    childrenInRange bugTree = false := by
  refine ⟨rfl, by decide, by decide⟩

/-- C1 (code_bug evaluation).  On the same parse as C2, running
`ComputeContent` crashes: the second child starts at byte 0 while the
walk has already advanced past byte 1, so the slice
`Source[pos:ch.Pos]` has reversed bounds and panics in Go (modelled as
`.error .slicePanic`).  The claimed lossless round-trip — which is also
the documented contract of `Node.Content` — therefore fails: no content
is produced at all. -/
theorem c1_compute_content_panics :
    parsedTree gBug uniFalse 50 (asciiBytes "ax") = some bugTree ∧
    goComputeContent 50 (asciiBytes "ax") bugTree = .error .slicePanic := by
  refine ⟨rfl, rfl⟩

/-- C10 (code_bug evaluation).  Applying rule `B <- 'y'` at position 0 of
source "x" from a state with one parent node on the stack fails (the
returned error is present), the stack is left balanced at depth 1 — but
the failed node labelled "B" has still been attached as a child of the
parent, although the claim (matching the older parser/parser.go engine)
says a child is attached only when the application succeeds. -/
theorem c10_failed_apply_attaches_child :
    (interp gB10 uniFalse 10 (.applyRule ruB10) st10 0).map
      (fun out => (out.1, out.2.1.isSome, out.2.2.nodeStack.length,
        (topNode out.2.2).children.map (fun c => (c.data.label, c.data.err.isSome)))) =
      some (0, true, 1, [("B", true)]) := by
  decide

/-- C4: if the top-level application of the start rule succeeds consuming
zero bytes on a non-empty input, `Parse` returns the
"grammar matched 0 characters" error — for every grammar and options,
in particular also when `IgnoreUnconsumedTail` is set, since the check
precedes the unconsumed-tail check unconditionally. -/
theorem c4_zero_width_top_match_is_error (g : Grammar)
    (uni : String → Nat → Bool) (fuel : Nat) (input : List Nat)
    (top ru : GRule) (r' : PState)
    (htop : g.rules.head? = some top)
    (hfind : findRule g top.ident = some ru)
    (happly : interp g uni fuel (.applyRule ru) { source := input } 0 =
      some (0, none, r'))
    (hne : input ≠ []) :
    goParse g uni fuel input = some (some r', some (.matchedZero r'.fyiError)) := by
  unfold goParse
  cases hg : g.rules with
  | nil => rw [hg] at htop; simp at htop
  | cons t rest =>
    rw [hg] at htop
    simp only [List.head?] at htop
    injection htop with htop
    subst htop
    simp only
    rw [hfind]
    simp only
    rw [happly]
    simp only
    rw [if_pos ⟨trivial, List.length_pos.mpr hne⟩]

/-- Witness for C4: grammar `Q <- 'x'?` with `IgnoreUnconsumedTail` set,
input "y": the top rule matches zero bytes and `Parse` reports the
matched-zero error anyway. -/
theorem c4_witness :
    goParse gQOpt uniFalse 10 [121] =
      some (some r4wit, some (.matchedZero r4wit.fyiError)) ∧
    gQOpt.options.ignoreUnconsumedTail = true := by
  refine ⟨c4_zero_width_top_match_is_error gQOpt uniFalse 10 [121] ruQ ruQ r4wit
    rfl rfl rfl (by decide), rfl⟩

/-- C5 (counterexample to the claim as stated): the dot/any matcher at a
position whose byte 0xFF decodes to the replacement scalar does not fail
— it succeeds and consumes one byte, because the forward special-class
matcher has no `RuneError` check (unlike the regular-map case, and
unlike the backward special-class matcher). -/
theorem c5_any_class_matches_invalid_byte :
    ccHandler uniFalse anyCC stFF 0 = (1, none, stFF) ∧
    decodeRune (stFF.source.drop 0) = (runeError, 1) := ⟨rfl, rfl⟩

/-- C5 as amended: the compiled forward character-class matcher behaves
exactly as `ccMatcherSpec` describes — end-of-input always fails; the
replacement-scalar check applies only to classes without a special tag;
membership is the special check for special-tagged classes (incl. the
dot) and otherwise the scalar set or the ranges, inverted when negated;
success consumes the decoded width. -/
theorem c5_amended_charclass_matcher (uni : String → Nat → Bool)
    (cc : CharClass) (r : PState) (pos : Nat) :
    ccHandler uni cc r pos = ccMatcherSpec uni cc r pos := by
  unfold ccHandler ccMatcherSpec
  by_cases hsp : cc.special = "" <;> simp [hsp]

/-- C6: `Result.apply`.  Memo hit with a cached failure: return the
cached length and error, touch nothing.  Memo hit with a cached
success: return the cached length and re-attach the very same node.
Memo miss: run the rule body once on a fresh node labelled with the
rule name at the current position; the body leaves that node on top of
the stack (stack shape is preserved below it); `apply` then pops it,
fills in its length and error, stores it in the memo, and attaches it
(in particular on success). -/
theorem c6_apply_memoization (g : Grammar) (uni : String → Nat → Bool)
    (k : Nat) (ru : GRule) (r : PState) (pos : Nat) :
    (∀ n, memoLookup r.memo pos ru.ident = some n →
      (∀ e, n.data.err = some e →
        interp g uni (k+1) (.applyRule ru) r pos = some (n.data.len, some e, r)) ∧
      (n.data.err = none →
        interp g uni (k+1) (.applyRule ru) r pos =
          some (n.data.len, none, attach g.options r n))) ∧
    (memoLookup r.memo pos ru.ident = none →
      ∀ w e r1, interp g uni k (.rhs ru.rhs)
          { r with nodeStack := .node { label := ru.ident, pos := pos } [] :: r.nodeStack }
          pos = some (w, e, r1) →
        r1.nodeStack.tail = r.nodeStack ∧
        interp g uni (k+1) (.applyRule ru) r pos =
          some (w, e,
            attach g.options
              { r1 with nodeStack := r.nodeStack,
                        memo := memoInsert r1.memo pos ru.ident
                          (.node { (r1.nodeStack.headD default).data with
                                   len := w, err := e }
                            (r1.nodeStack.headD default).children) }
              (.node { (r1.nodeStack.headD default).data with len := w, err := e }
                (r1.nodeStack.headD default).children))) := by
  constructor
  · intro n hm
    constructor
    · intro e he
      simp only [interp]
      rw [hm]
      simp only
      rw [he]
    · intro he
      simp only [interp]
      rw [hm]
      simp only
      rw [he]
  · intro hm w e r1 hbody
    have hshape := interp_shape g uni k _ _ _ _ _ _ hbody
    have htail : r1.nodeStack.tail = r.nodeStack := by
      have := hshape.2.2
      simpa using this
    have hlen : r1.nodeStack.length = r.nodeStack.length + 1 := by
      have := hshape.2.1
      simpa using this
    refine ⟨htail, ?_⟩
    simp only [interp]
    rw [hm]
    simp only
    rw [hbody]
    simp only
    cases hs : r1.nodeStack with
    | nil => rw [hs] at hlen; simp at hlen
    | cons n2 rest =>
      rw [hs] at htail
      simp only [List.tail] at htail
      subst htail
      simp only [List.headD]

/-- Witness for C6: both memo paths and the memo-miss path on concrete
states.  `st6hit` caches a failure of rule "B" at position 0, so `apply`
returns the cached error and leaves the state untouched; on the empty
memo of `st6` the body of `B <- 'y'` runs on source "y" and the result
is recorded and attached. -/
theorem c6_witness :
    interp gB10 uniFalse 5 (.applyRule ruB10) st6hit 0 =
      some (nHit.data.len, some .negPredMatched, st6hit) ∧
    interp gB10 uniFalse 5 (.applyRule ruB10) st6 0 =
      some (w6, e6,
        attach gB10.options
          { r6 with nodeStack := st6.nodeStack,
                    memo := memoInsert r6.memo 0 ruB10.ident
                      (.node { n6.data with len := w6, err := e6 } n6.children) }
          (.node { n6.data with len := w6, err := e6 } n6.children)) := by
  constructor
  · exact ((c6_apply_memoization gB10 uniFalse 4 ruB10 st6hit 0).1 nHit rfl).1
      .negPredMatched rfl
  · exact ((c6_apply_memoization gB10 uniFalse 4 ruB10 st6 0).2 rfl w6 e6 r6 rfl).2

/-- C7: the star matcher built from any inner matcher `h` that terminates
(never `none`) and makes bounded progress (a success at `p` consumes at
most the bytes remaining past `p` and preserves the source) returns
success — never an error — at every position, and the loop finishes
within `len(source) + 1` iterations because it continues only while the
inner match succeeds with `w > 0`. -/
theorem c7_star_always_succeeds
    (h : PState → Nat → Option (Nat × Option PErr × PState))
    (hterm : ∀ r p, h r p ≠ none)
    (hbound : ∀ r p w r', h r p = some (w, none, r') →
      p + w ≤ r.source.length ∧ r'.source = r.source)
    (r : PState) (pos : Nat) :
    (makeStarHandlerGo h r pos).map (fun o => o.2.1) = some none := by
  have main : ∀ (k : Nat) (r0 : PState) (pos0 ww : Nat) (save : List PNode),
      r0.source.length - (pos0 + ww) < k →
      (starIter h k r0 pos0 ww save).map (fun o => o.2.1) = some none := by
    intro k
    induction k with
    | zero => intro r0 pos0 ww save hk; omega
    | succ k ih =>
      intro r0 pos0 ww save hk
      simp only [starIter]
      cases hh : h r0 (pos0 + ww) with
      | none => exact absurd hh (hterm r0 (pos0 + ww))
      | some out =>
        obtain ⟨w1, e1, r1⟩ := out
        cases e1 with
        | some e1 => simp
        | none =>
          simp only
          by_cases hw : w1 > 0
          · rw [if_pos hw]
            apply ih
            have hb := hbound r0 (pos0 + ww) w1 r1 hh
            rw [hb.2]
            omega
          · rw [if_neg hw]
            simp
  unfold makeStarHandlerGo
  exact main (r.source.length + 1) r pos 0 (topNode r).children (by omega)

/-- Witness for C7: the star of the literal matcher for "a" on source
"aab" terminates with success. -/
theorem c7_witness :
    (makeStarHandlerGo hLitA stW 0).map (fun o => o.2.1) = some none := by
  apply c7_star_always_succeeds
  · intro r p
    simp [hLitA]
  · intro r p w r' hh
    simp only [hLitA, litHandler, List.length_cons, List.length_nil,
      Nat.zero_add] at hh
    split at hh
    · simp at hh
    · rename_i hcond
      split at hh
      · simp only [Option.some.injEq, Prod.mk.injEq] at hh
        obtain ⟨hw, -, hr⟩ := hh
        subst hw
        subst hr
        exact ⟨by omega, rfl⟩
      · simp at hh

/-- Helper for C8: wherever the claim-side predicate finds an unused
children-map entry, the corresponding construction run cannot succeed.
The `.kids` half is proved for every threaded map, since sibling results
do not influence which children maps get built. -/
theorem consRun_unused (cb : Cb) (opts : AccessorOptions)
    (hopts : opts.errorOnUnusedChild = true) :
    ∀ (k : Nat),
      (∀ n out, hasUnusedRun cb opts k (.one n) = true →
        consRun cb opts k (.one n) ≠ some (.ok out)) ∧
      (∀ ns m m' out, hasUnusedRun cb opts k (.kids ns m) = true →
        consRun cb opts k (.kids ns m') ≠ some (.ok out)) := by
  intro k
  induction k with
  | zero =>
    constructor
    · intro n out hu; simp [hasUnusedRun] at hu
    · intro ns m m' out hu; simp [hasUnusedRun] at hu
  | succ k ih =>
    obtain ⟨ihOne, ihKids⟩ := ih
    constructor
    · intro n out hu hc
      simp only [hasUnusedRun] at hu
      simp only [consRun] at hc
      rw [Bool.or_eq_true] at hu
      cases hck : consRun cb opts k (.kids n.children []) with
      | none => rw [hck] at hc; simp at hc
      | some res =>
        cases res with
        | error e => rw [hck] at hc; simp at hc
        | ok o =>
          cases o with
          | val v => rw [hck] at hc; simp at hc
          | cmap m =>
            cases hu with
            | inr hkids => exact ihKids n.children [] [] (.cmap m) hkids hck
            | inl hnode =>
              rw [hck] at hnode hc
              simp only at hnode hc
              cases hcb : (cb n.data.label n m).2 with
              | error e => rw [hcb] at hc; simp at hc
              | ok v =>
                rw [hcb] at hc
                simp only at hc
                rw [hopts] at hc
                simp only [if_true] at hc
                split at hc
                · rename_i hemp
                  obtain ⟨p, hpmem, hp⟩ := List.any_eq_true.mp hnode
                  have hfil : p ∈ m.filter
                      (fun p => !((runCalls n m (cb n.data.label n m).1).1.contains p.1)) :=
                    List.mem_filter.mpr ⟨hpmem, hp⟩
                  have : (m.filter (fun p =>
                      !((runCalls n m (cb n.data.label n m).1).1.contains p.1))).map
                        (fun p => "child " ++ p.1 ++ " was not used during conversion")
                        ≠ [] := by
                    intro hnil
                    rw [List.map_eq_nil_iff] at hnil
                    rw [hnil] at hfil
                    simp at hfil
                  rw [List.isEmpty_iff] at hemp
                  exact this (List.append_eq_nil.mp hemp).2
                · simp at hc
    · intro ns m m' out hu hc
      cases ns with
      | nil => simp [hasUnusedRun] at hu
      | cons ch rest =>
        simp only [hasUnusedRun] at hu
        rw [Bool.or_eq_true] at hu
        simp only [consRun] at hc
        cases hc1 : consRun cb opts k (.one ch) with
        | none => rw [hc1] at hc; simp at hc
        | some res =>
          cases res with
          | error e => rw [hc1] at hc; simp at hc
          | ok o =>
            cases o with
            | cmap m2 => rw [hc1] at hc; simp at hc
            | val v =>
              cases hu with
              | inl hone => exact ihOne ch (.val v) hone hc1
              | inr hrest =>
                rw [hc1] at hc
                cases v with
                | none =>
                  simp only at hc
                  exact ihKids rest m m' out hrest hc
                | some v =>
                  simp only at hc
                  cases hav : addChildVal m' ch.data.label v with
                  | error e => rw [hav] at hc; simp at hc
                  | ok m2 =>
                    rw [hav] at hc
                    simp only at hc
                    exact ihKids rest m m2 out hrest hc

/-- C8 (counterexample to the claim as stated): with
`ErrorOnUnusedChild` set, a tree with a labelled child "C" that the
callback never consumes via any accessor call still constructs
successfully, because the callback returned nil for "C" and nil-valued
children are exempt from the unused-child check (as the option's own
doc comment in construct.go says: only children "converted to
non-trivial semantic subtrees" count). -/
theorem c8_nil_child_not_reported :
    goConstruct cbNil ⟨true⟩ 10 treePC = some (.ok (some (.tagged "v"))) ∧
    treePC.children.map (fun c => c.data.label) = ["C"] ∧
    (cbNil "P" treePC []).1 = [] := ⟨rfl, by decide, rfl⟩

/-- C8 as amended: with `ErrorOnUnusedChild` set, construction fails
whenever the tree contains a node one of whose children-map entries —
the labels whose constructed child values were non-nil — is never
accessed by the callback through a get/String accessor call. -/
theorem c8_amended_unused_child_fails (cb : Cb) (opts : AccessorOptions)
    (fuel : Nat) (n : PNode)
    (hopts : opts.errorOnUnusedChild = true)
    (hu : hasUnusedRun cb opts fuel (.one n) = true) :
    ∀ v, goConstruct cb opts fuel n ≠ some (.ok v) := by
  intro v hc
  unfold goConstruct at hc
  cases hck : consRun cb opts fuel (.one n) with
  | none => rw [hck] at hc; simp at hc
  | some res =>
    cases res with
    | error e => rw [hck] at hc; simp at hc
    | ok o =>
      cases o with
      | cmap m => rw [hck] at hc; simp at hc
      | val v2 => exact (consRun_unused cb opts hopts fuel).1 n (.val v2) hu hck

/-- Witness for C8's amended claim: `cbVal` values every node and never
accesses child labels, so the two-node tree has an unused "C" entry and
construction fails. -/
theorem c8_witness :
    hasUnusedRun cbVal ⟨true⟩ 10 (.one treePC) = true ∧
    goConstruct cbVal ⟨true⟩ 10 treePC ≠ some (.ok (some (.tagged "v"))) := by
  refine ⟨rfl, c8_amended_unused_child_fails cbVal ⟨true⟩ 10 treePC rfl rfl
    (some (.tagged "v"))⟩

/-- C9: parsing is deterministic — the model `goParse` is a pure function
of the grammar, the unicode oracle, the fuel and the input (the Go
engine consults no other state: the memo is per-Result and map iteration
order only affects error-message text), so two successful runs of the
same parse yield equal Results, and in particular structurally equal
trees with identical labels, captured texts, positions and lengths. -/
theorem c9_parse_deterministic (g : Grammar) (uni : String → Nat → Bool)
    (fuel : Nat) (input : List Nat) (r1 r2 : PState)
    (h1 : goParse g uni fuel input = some (some r1, none))
    (h2 : goParse g uni fuel input = some (some r2, none)) :
    r1 = r2 ∧ r1.tree = r2.tree := by
  rw [h1] at h2
  simp only [Option.some.injEq, Prod.mk.injEq] at h2
  obtain ⟨ha, -⟩ := h2
  exact ⟨ha, by rw [ha]⟩

/-- Witness for C9 on the concrete parse of "ax" with `gBug`. -/
theorem c9_witness : r9wit = r9wit ∧ r9wit.tree = r9wit.tree :=
  c9_parse_deterministic gBug uniFalse 50 (asciiBytes "ax") r9wit r9wit rfl rfl

end Peg
